import Mathlib

/-!
Shallow embedding of `src/simple_dashboard.py` (the EPD analysis dashboard).

The computational core of the program is the helper `perform_analysis(df,
material)` (lines 8-47) together with the combining loop (lines 128-144) and
the two `sort_values` calls (lines 149-151).  The tabular dataset is a list of
records; nullable numeric cells (pandas NaN) are modelled as `Option ℚ` and a
nullable description cell as `Option String`.  All arithmetic is exact
rational arithmetic standing for the real-number semantics of the float
computations.
-/

set_option allowUnsafeReducibility true in
attribute [semireducible] Rat.add Rat.mul Rat.inv Rat.sub

/-- One row of the uploaded table.  The three columns the program reads are
`Material description` (nullable text), `Embodied Energy` and
`Embodied Carbon` (nullable numerics); `none` models a missing cell / NaN. -/
structure Record where
  description : Option String
  ee : Option ℚ
  ec : Option ℚ
deriving DecidableEq

/-- A token of a Python regular expression: the `.` wildcard or a literal
character.  Line 16 of the source,
`df["Material description"].str.contains(material, case=False, na=False)`,
interprets `material` as a regular expression (pandas default `regex=True`)
and runs `re.search` with `re.IGNORECASE` on each description.  This models
the fragment of Python regex syntax consisting of literal characters and the
`.` wildcard; patterns using other metacharacters (which `re` either treats
specially or rejects with `re.error`) are outside the modelled fragment. -/
inductive RTok where
  | dot : RTok
  | lit : Char → RTok
deriving DecidableEq

/-- Compile a pattern string of the modelled fragment: `.` becomes the
wildcard token, every other character a literal token. -/
def pyPattern (pat : String) : List RTok :=
  pat.toList.map (fun c => if c = '.' then RTok.dot else RTok.lit c)

/-- Match one token against one character; `re.IGNORECASE` is modelled by
comparing ASCII-lowercased characters, and `.` matches any character (the
descriptions contain no newlines in the modelled data). -/
def tokMatch (t : RTok) (c : Char) : Bool :=
  match t with
  | RTok.dot => true
  | RTok.lit l => decide (l.toLower = c.toLower)

/-- Does the token list match a leading segment of the character list? -/
def matchHere : List RTok → List Char → Bool
  | [], _ => true
  | _ :: _, [] => false
  | t :: ts, c :: cs => tokMatch t c && matchHere ts cs

/-- `re.search`: does the pattern match starting at some position? -/
def reSearch (toks : List RTok) : List Char → Bool
  | [] => matchHere toks []
  | c :: cs => matchHere toks (c :: cs) || reSearch toks cs

/-- The filter predicate of line 16: a record matches `material` when its
description is present and `re.search` succeeds on it with the compiled
case-insensitive pattern; `na=False` makes a null description never match. -/
def descMatches (material : String) (r : Record) : Bool :=
  match r.description with
  | none => false
  | some d => reSearch (pyPattern material) d.toList

/-- Leading-segment test on character lists (after lowercasing), used to state
literal substring containment the way the spec words it. -/
def matchPref : List Char → List Char → Bool
  | [], _ => true
  | _ :: _, [] => false
  | a :: as, b :: bs => decide (a = b) && matchPref as bs

/-- Contiguous-substring test on character lists: the needle occurs starting
at some position of the haystack. -/
def matchSub (needle : List Char) : List Char → Bool
  | [] => matchPref needle []
  | c :: cs => matchPref needle (c :: cs) || matchSub needle cs

/-- The spec's wording of the filter: the material is contained in the
description as a case-insensitive literal substring; a null description never
matches. -/
def literalMatches (material : String) (r : Record) : Bool :=
  match r.description with
  | none => false
  | some d => matchSub (material.toList.map Char.toLower) (d.toList.map Char.toLower)

/-- The regex metacharacters of Python `re`; a pattern avoiding all of them
is matched purely literally. -/
def regexMeta : List Char := ".^$*+?()[]\x7b\x7d\\|".toList

/-- Computable floor of a rational to a natural number (equal to `⌊x⌋₊` for
`0 ≤ x`, see `natFloorQ_eq_floor`); used so that concrete quantiles evaluate
by kernel reduction. -/
def natFloorQ (x : ℚ) : ℕ := x.num.toNat / x.den

/-- Linear-interpolation quantile of an already sorted nonempty list `s`
(numpy/pandas `interpolation='linear'`): with `h = q·(n−1)`, `i = ⌊h⌋` and
`g = h − i`, the result is `s[i] + g·(s[min(i+1, n−1)] − s[i])`. -/
def quantileSorted (s : List ℚ) (q : ℚ) : ℚ :=
  let n := s.length
  let h : ℚ := q * ((n : ℚ) - 1)
  let i : ℕ := natFloorQ h
  let a := s.getD i 0
  let b := s.getD (min (i + 1) (n - 1)) 0
  a + (h - (i : ℚ)) * (b - a)

/-- `Series.quantile(q)` of pandas with the default linear interpolation:
NaN entries are skipped before the computation (so `xs` is the list of
non-null values), and the quantile of an empty series is NaN (`none`). -/
def quantile (xs : List ℚ) (q : ℚ) : Option ℚ :=
  if xs = [] then none
  else some (quantileSorted (List.insertionSort (· ≤ ·) xs) q)

/-- `Series.median()` of pandas: the 50th percentile with the same
interpolation, NaN skipped; NaN (`none`) on an empty series. -/
def median (xs : List ℚ) : Option ℚ := quantile xs (1/2)

/-- `scipy.stats.skew` with its defaults (`bias=True`): the sample skewness
`g1 = m3 / m2^(3/2)` of the central moments `mk = Σ(x−mean)^k / n`.  The value
is represented exactly by the pair `(m3, m2)` with `m2 > 0` (the real
skewness is the irrational `m3 / m2^(3/2)`, and is zero exactly when
`m3 = 0`); `none` models the NaN result, which scipy produces for an empty
sample (the mean of an empty array is NaN) and for a zero-variance sample. -/
def skew (xs : List ℚ) : Option (ℚ × ℚ) :=
  match xs with
  | [] => none
  | _ =>
    let n : ℚ := (xs.length : ℚ)
    let mean := xs.sum / n
    let m2 := (xs.map (fun x => (x - mean) ^ 2)).sum / n
    let m3 := (xs.map (fun x => (x - mean) ^ 3)).sum / n
    if m2 = 0 then none else some (m3, m2)

/-- The IQR outlier trim of lines 25-29 (and 32-36) applied to the list of
non-null values of one metric: `Q1`/`Q3` are the 25th/75th percentile of the
series (pandas skips NaN), and exactly the values `v` with
`Q1 − 1.5·IQR ≤ v ≤ Q3 + 1.5·IQR` are retained, in their original order.
NaN cells fail both comparisons in the code and are likewise dropped here;
when the series has no non-null value at all the quantiles are NaN, every
comparison is false and nothing is retained. -/
def iqrClean (xs : List ℚ) : List ℚ :=
  match quantile xs (1/4), quantile xs (3/4) with
  | some q1, some q3 =>
    let iqr := q3 - q1
    xs.filter (fun v => decide (q1 - 3/2 * iqr ≤ v) && decide (v ≤ q3 + 3/2 * iqr))
  | _, _ => []

/-- The non-null Embodied Energy values of a record list, in order. -/
def eeVals (rs : List Record) : List ℚ := rs.filterMap Record.ee

/-- The non-null Embodied Carbon values of a record list, in order. -/
def ecVals (rs : List Record) : List ℚ := rs.filterMap Record.ec

/-- The result record of `perform_analysis` (lines 41-47): both skewness
values, both trimmed medians, and the matched subset for plotting. -/
structure MaterialSummary where
  skew_ee : Option (ℚ × ℚ)
  skew_ec : Option (ℚ × ℚ)
  median_ee : Option ℚ
  median_ec : Option ℚ
  data : List Record
deriving DecidableEq

/-- `perform_analysis(df, material)` of lines 8-47: filter the rows whose
description matches, return `None` on an empty match, otherwise compute the
two skewnesses on the non-null values and the two IQR-trimmed medians. -/
def perform_analysis (df : List Record) (material : String) : Option MaterialSummary :=
  let mat_df := df.filter (descMatches material)
  if mat_df = [] then none
  else some {
    skew_ee := skew (eeVals mat_df)
    skew_ec := skew (ecVals mat_df)
    median_ee := median (iqrClean (eeVals mat_df))
    median_ec := median (iqrClean (ecVals mat_df))
    data := mat_df }

/-- One row of the `combined` list built in lines 139-144. -/
structure ComparisonRow where
  primary : String
  secondary : String
  combined_ee : Option ℚ
  combined_ec : Option ℚ
deriving DecidableEq

/-- Addition of two nullable floats; `NaN + x = NaN` in Python, so a missing
operand makes the sum missing. -/
def qadd : Option ℚ → Option ℚ → Option ℚ
  | some a, some b => some (a + b)
  | _, _ => none

/-- The combining loop of lines 128-144.  `mapping` models `mapping.get`
(`none` when the primary has no entry) and `analysis_results` models the dict
of summaries.  Python truthiness of the secondary name matters twice: in
`if secondary and secondary in analysis_results` and in
`secondary if secondary else "None"`; the empty string is falsy. -/
def combined (primary_materials : List String)
    (mapping : String → Option String)
    (analysis_results : String → Option MaterialSummary) : List ComparisonRow :=
  primary_materials.filterMap (fun primary =>
    let secondary := mapping primary
    match analysis_results primary with
    | none => none
    | some primary_res =>
      match secondary with
      | some s =>
        if s = "" then
          some ⟨primary, "None", primary_res.median_ee, primary_res.median_ec⟩
        else
          match analysis_results s with
          | some sec_res =>
            some ⟨primary, s, qadd primary_res.median_ee sec_res.median_ee,
                  qadd primary_res.median_ec sec_res.median_ec⟩
          | none => some ⟨primary, s, primary_res.median_ee, primary_res.median_ec⟩
      | none => some ⟨primary, "None", primary_res.median_ee, primary_res.median_ec⟩)

/-- The secondary name the amended claim speaks of: the mapped name when it
is present and non-empty (Python truthiness), nothing otherwise. -/
def mappedSecondary (mapping : String → Option String) (p : String) : Option String :=
  match mapping p with
  | some s => if s = "" then none else some s
  | none => none

/-- One row of the amended-claim Combiner for a primary with summary
`primary_res`. -/
def combineSpecRow (mapping : String → Option String)
    (analysis_results : String → Option MaterialSummary)
    (primary : String) (primary_res : MaterialSummary) : ComparisonRow :=
  match mappedSecondary mapping primary with
  | some s =>
    match analysis_results s with
    | some sec_res =>
      ⟨primary, s, qadd primary_res.median_ee sec_res.median_ee,
       qadd primary_res.median_ec sec_res.median_ec⟩
    | none => ⟨primary, s, primary_res.median_ee, primary_res.median_ec⟩
  | none => ⟨primary, "None", primary_res.median_ee, primary_res.median_ec⟩

/-- The Combiner as the amended claim words it: one row per primary material
that has a summary, in input order; when a non-empty secondary name is mapped
and that secondary has a summary, the combined values are the sums of the two
medians; otherwise they are the primary's medians alone; the Secondary field
carries the mapped non-empty name when there is one (whether or not it has a
summary) and the string "None" otherwise. -/
def combineSpec (primary_materials : List String)
    (mapping : String → Option String)
    (analysis_results : String → Option MaterialSummary) : List ComparisonRow :=
  primary_materials.filterMap (fun primary =>
    (analysis_results primary).map (combineSpecRow mapping analysis_results primary))

/-- Destructuring of a successful `perform_analysis` call: the matched subset
is the nonempty filtered list and every field is the corresponding statistic
of it. -/
theorem analyze_some_eq {df : List Record} {material : String} {s : MaterialSummary}
    (h : perform_analysis df material = some s) :
    df.filter (descMatches material) ≠ [] ∧
    s.skew_ee = skew (eeVals (df.filter (descMatches material))) ∧
    s.skew_ec = skew (ecVals (df.filter (descMatches material))) ∧
    s.median_ee = median (iqrClean (eeVals (df.filter (descMatches material)))) ∧
    s.median_ec = median (iqrClean (ecVals (df.filter (descMatches material)))) ∧
    s.data = df.filter (descMatches material) := by
  by_cases hc : df.filter (descMatches material) = []
  · simp [perform_analysis, hc] at h
  · simp only [perform_analysis, if_neg hc] at h
    cases h
    exact ⟨hc, rfl, rfl, rfl, rfl, rfl⟩

/-- C2: `analyze` returns `None` exactly when the case-insensitive filter
selects no record; when a summary is returned its matched subset is the
(nonempty) filtered list, so no zero-filled summary is produced for an absent
material. -/
theorem analyze_nomatch_iff (df : List Record) (material : String) :
    (perform_analysis df material = none ↔ df.filter (descMatches material) = []) ∧
    (∀ s : MaterialSummary, perform_analysis df material = some s →
      s.data = df.filter (descMatches material) ∧ s.data ≠ []) := by
  constructor
  · by_cases hc : df.filter (descMatches material) = [] <;>
      simp [perform_analysis, hc]
  · intro s hs
    obtain ⟨hne, -, -, -, -, hdata⟩ := analyze_some_eq hs
    exact ⟨hdata, hdata ▸ hne⟩

/-- Witness for C2 at a concrete dataset: an absent material yields `None`,
and a present one yields a summary with a nonempty matched subset. -/
theorem analyze_nomatch_iff_witness :
    perform_analysis [⟨some "Vitrified Tile", some 10, some 5⟩] "granite" = none ∧
    (⟨none, none, some 10, some 5, [⟨some "Vitrified Tile", some 10, some 5⟩]⟩ :
      MaterialSummary).data ≠ [] := by
  refine ⟨(analyze_nomatch_iff [⟨some "Vitrified Tile", some 10, some 5⟩] "granite").1.mpr
    (by decide), ?_⟩
  exact ((analyze_nomatch_iff [⟨some "Vitrified Tile", some 10, some 5⟩] "vitrified").2
    ⟨none, none, some 10, some 5, [⟨some "Vitrified Tile", some 10, some 5⟩]⟩ (by decide)).2

/-- C8: `perform_analysis` is a pure function of its two arguments — two calls
on identical inputs give identical summaries — and the matched subset it
returns is a sublist of the input dataset, which is never modified (every
entity in the embedding is immutable). -/
theorem analyze_deterministic (df df2 : List Record) (material material2 : String)
    (hdf : df = df2) (hm : material = material2) :
    perform_analysis df material = perform_analysis df2 material2 ∧
    (∀ s : MaterialSummary, perform_analysis df material = some s → s.data.Sublist df) := by
  subst hdf; subst hm
  refine ⟨rfl, fun s hs => ?_⟩
  rw [(analyze_some_eq hs).2.2.2.2.2]
  exact List.filter_sublist df

/-- Witness for C8 at a concrete dataset and material. -/
theorem analyze_deterministic_witness :
    perform_analysis [⟨some "Marble Slab", some 3, some 4⟩] "marble" =
      perform_analysis [⟨some "Marble Slab", some 3, some 4⟩] "marble" ∧
    List.Sublist ([⟨some "Marble Slab", some 3, some 4⟩] : List Record)
      ([⟨some "Marble Slab", some 3, some 4⟩] : List Record) := by
  refine ⟨(analyze_deterministic _ _ "marble" "marble" rfl rfl).1, ?_⟩
  exact (analyze_deterministic [⟨some "Marble Slab", some 3, some 4⟩] _ "marble" "marble"
    rfl rfl).2 ⟨none, none, some 3, some 4, [⟨some "Marble Slab", some 3, some 4⟩]⟩ (by decide)

/-- C7: when a matched subset has zero non-null values for a metric, the call
still completes and that metric's skewness and trimmed median are both the
NaN sentinel; and whenever the post-trim retained set is empty the median is
the NaN sentinel, never a silent fallback. -/
theorem analyze_empty_metric (df : List Record) (material : String) (s : MaterialSummary)
    (h : perform_analysis df material = some s) :
    (eeVals s.data = [] → s.skew_ee = none ∧ s.median_ee = none) ∧
    (ecVals s.data = [] → s.skew_ec = none ∧ s.median_ec = none) ∧
    (iqrClean (eeVals s.data) = [] → s.median_ee = none) ∧
    (iqrClean (ecVals s.data) = [] → s.median_ec = none) := by
  obtain ⟨-, hsee, hsec, hmee, hmec, hdata⟩ := analyze_some_eq h
  rw [← hdata] at hsee hsec hmee hmec
  refine ⟨fun he => ?_, fun he => ?_, fun he => ?_, fun he => ?_⟩
  · rw [he] at hsee hmee; exact ⟨hsee, hmee⟩
  · rw [he] at hsec hmec; exact ⟨hsec, hmec⟩
  · rw [he] at hmee; exact hmee
  · rw [he] at hmec; exact hmec

/-- Witness for C7: a matched record with both numeric cells missing gives the
NaN sentinel for both statistics of both metrics. -/
theorem analyze_empty_metric_witness :
    ((⟨none, none, none, none, [⟨some "mortar mix", none, none⟩]⟩ : MaterialSummary).skew_ee
        = none ∧
      (⟨none, none, none, none, [⟨some "mortar mix", none, none⟩]⟩ : MaterialSummary).median_ee
        = none) ∧
    (⟨none, none, none, none, [⟨some "mortar mix", none, none⟩]⟩ : MaterialSummary).median_ec
      = none :=
  ⟨(analyze_empty_metric [⟨some "mortar mix", none, none⟩] "mortar"
      ⟨none, none, none, none, [⟨some "mortar mix", none, none⟩]⟩ (by decide)).1 (by decide),
   (analyze_empty_metric [⟨some "mortar mix", none, none⟩] "mortar"
      ⟨none, none, none, none, [⟨some "mortar mix", none, none⟩]⟩ (by decide)).2.2.2 (by decide)⟩

/-- C1: the trimmed median of each metric is the median of the IQR-trimmed
non-null values, with Q1/Q3 the linearly interpolated 25th/75th percentiles
and an inclusive retention band of [Q1 − 1.5·IQR, Q3 + 1.5·IQR]; on the
reference values [10, 12, 11, 13, 9, 1000] one gets Q1 = 10.25, Q3 = 12.75,
the value 1000 is excluded, and the trimmed median equals 11 — also through
the full `perform_analysis` pipeline. -/
theorem trimmed_median_iqr :
    (∀ (df : List Record) (material : String) (s : MaterialSummary),
      perform_analysis df material = some s →
        s.median_ee = median (iqrClean (eeVals s.data)) ∧
        s.median_ec = median (iqrClean (ecVals s.data))) ∧
    (∀ (xs : List ℚ) (q1 q3 : ℚ), quantile xs (1/4) = some q1 →
      quantile xs (3/4) = some q3 →
      iqrClean xs = xs.filter (fun v =>
        decide (q1 - 3/2 * (q3 - q1) ≤ v) && decide (v ≤ q3 + 3/2 * (q3 - q1)))) ∧
    quantile [10, 12, 11, 13, 9, 1000] (1/4) = some (41/4) ∧
    quantile [10, 12, 11, 13, 9, 1000] (3/4) = some (51/4) ∧
    iqrClean [10, 12, 11, 13, 9, 1000] = [10, 12, 11, 13, 9] ∧
    ((1000 : ℚ) ∈ iqrClean [10, 12, 11, 13, 9, 1000] → False) ∧
    median (iqrClean [10, 12, 11, 13, 9, 1000]) = some 11 ∧
    (perform_analysis
        [⟨some "granite 20mm", some 10, none⟩, ⟨some "granite slab", some 12, none⟩,
         ⟨some "granite tile", some 11, none⟩, ⟨some "granite big", some 13, none⟩,
         ⟨some "granite thin", some 9, none⟩, ⟨some "granite odd", some 1000, none⟩]
        "granite").map MaterialSummary.median_ee = some (some 11) := by
  refine ⟨?_, ?_, by decide, by decide, by decide, by decide, by decide, by decide⟩
  · intro df material s h
    obtain ⟨-, -, -, hmee, hmec, hdata⟩ := analyze_some_eq h
    rw [← hdata] at hmee hmec
    exact ⟨hmee, hmec⟩
  · intro xs q1 q3 h1 h3
    simp only [iqrClean, h1, h3]

/-- Witness for C1: the general conjunct applied to a concrete call. -/
theorem trimmed_median_iqr_witness :
    (⟨none, none, some 11, none, [⟨some "g", some 11, none⟩]⟩ : MaterialSummary).median_ee =
      median (iqrClean (eeVals
        (⟨none, none, some 11, none, [⟨some "g", some 11, none⟩]⟩ : MaterialSummary).data)) ∧
    iqrClean [10, 12, 11, 13, 9, 1000] = List.filter (fun v =>
      decide ((41:ℚ)/4 - 3/2 * (51/4 - 41/4) ≤ v) && decide (v ≤ (51:ℚ)/4 + 3/2 * (51/4 - 41/4)))
      [10, 12, 11, 13, 9, 1000] := by
  constructor
  · exact (trimmed_median_iqr.1 [⟨some "g", some 11, none⟩] "g"
      ⟨none, none, some 11, none, [⟨some "g", some 11, none⟩]⟩ (by decide)).1
  · exact trimmed_median_iqr.2.1 [10, 12, 11, 13, 9, 1000] (41/4) (51/4)
      (by decide) (by decide)

/-- A pattern of literal tokens matches a leading segment exactly when the
lowercased needle is a leading segment of the lowercased haystack. -/
theorem matchHere_lit (p cs : List Char) :
    matchHere (p.map RTok.lit) cs = matchPref (p.map Char.toLower) (cs.map Char.toLower) := by
  induction p generalizing cs with
  | nil => cases cs <;> rfl
  | cons a as ih =>
    cases cs with
    | nil => rfl
    | cons c cs' => simp [matchHere, matchPref, tokMatch, ih]

/-- `re.search` with a purely literal pattern is case-insensitive substring
containment. -/
theorem reSearch_lit (p cs : List Char) :
    reSearch (p.map RTok.lit) cs = matchSub (p.map Char.toLower) (cs.map Char.toLower) := by
  induction cs with
  | nil => simpa [reSearch, matchSub] using matchHere_lit p []
  | cons c cs' ih =>
    have h := matchHere_lit p (c :: cs')
    simp only [List.map_cons] at h
    simp only [reSearch, matchSub, List.map_cons, ih, h]

/-- A pattern free of regex metacharacters compiles to literal tokens only. -/
theorem pyPattern_lit {pat : String} (hmeta : ∀ c ∈ pat.toList, c ∉ regexMeta) :
    pyPattern pat = pat.toList.map RTok.lit := by
  unfold pyPattern
  refine List.map_congr_left fun c hc => ?_
  have hdot : c ≠ '.' := fun h => hmeta c hc (h ▸ (by decide : ('.' : Char) ∈ regexMeta))
  simp [hdot]

/-- C3 counterexample: line 16 treats the material as a regular expression,
so the metacharacter pattern "." matches the description "abc" even though
"." is not a literal substring of it — the filter is not literal
case-insensitive substring containment on all material strings. -/
theorem filter_not_literal_counterexample :
    descMatches "." ⟨some "abc", some 1, some 1⟩ = true ∧
    literalMatches "." ⟨some "abc", some 1, some 1⟩ = false ∧
    List.filter (descMatches ".") [⟨some "abc", some 1, some 1⟩] ≠
      List.filter (literalMatches ".") [⟨some "abc", some 1, some 1⟩] := by decide

/-- C3 (amended): for material strings free of regex metacharacters the
filter criterion coincides with case-insensitive literal substring
containment of the material in the description; a missing description never
matches (and never raises); and the description "Vitrified Tile" matches the
query "vitrified". -/
theorem filter_literal_amended :
    (∀ (material : String) (r : Record), (∀ c ∈ material.toList, c ∉ regexMeta) →
      descMatches material r = literalMatches material r) ∧
    (∀ (material : String) (r : Record), r.description = none →
      descMatches material r = false) ∧
    descMatches "vitrified" ⟨some "Vitrified Tile", some 2, some 3⟩ = true := by
  refine ⟨?_, ?_, by decide⟩
  · intro material r hmeta
    unfold descMatches literalMatches
    cases r.description with
    | none => rfl
    | some d => simp only [pyPattern_lit hmeta, reSearch_lit]
  · intro material r hd
    unfold descMatches
    rw [hd]

/-- Witness for C3 (amended) at a concrete metacharacter-free material and a
mixed-case description, and at a record with a missing description. -/
theorem filter_literal_amended_witness :
    descMatches "ab" ⟨some "xABy", some 1, none⟩ = literalMatches "ab" ⟨some "xABy", some 1, none⟩ ∧
    descMatches "ab" ⟨none, some 1, none⟩ = false :=
  ⟨filter_literal_amended.1 "ab" ⟨some "xABy", some 1, none⟩ (by decide),
   filter_literal_amended.2.1 "ab" ⟨none, some 1, none⟩ rfl⟩

/-- C9: the material argument is interpreted as a regular expression, not a
literal substring: with the metacharacter pattern "." a dataset whose sole
description is "abc" yields a summary (the record matches via the wildcard),
while literal case-insensitive containment selects no record at all. -/
theorem material_is_regex :
    ('.' : Char) ∈ regexMeta ∧
    (perform_analysis [⟨some "abc", some 1, some 2⟩] ".").isSome = true ∧
    List.filter (descMatches ".") [⟨some "abc", some 1, some 2⟩] =
      [⟨some "abc", some 1, some 2⟩] ∧
    List.filter (literalMatches ".") [⟨some "abc", some 1, some 2⟩] = [] := by decide

/-- Every row the amended Combiner builds for a primary carries that primary's
name in its Primary field. -/
theorem combineSpecRow_primary (mapping : String → Option String)
    (results : String → Option MaterialSummary) (p : String) (pr : MaterialSummary) :
    (combineSpecRow mapping results p pr).primary = p := by
  unfold combineSpecRow
  split
  · split <;> rfl
  · rfl

/-- C4 counterexample: with primary "marble" (which has a summary) mapped to
secondary "grout" (which has none), the emitted row's combined values are the
primary's medians alone, but its Secondary field reads "grout", not "None" as
the claim states. -/
theorem combine_secondary_counterexample :
    combined ["marble"] (fun p => if p = "marble" then some "grout" else none)
      (fun p => if p = "marble" then
        some ⟨none, none, some 50, some 7, [⟨some "marble slab", some 50, some 7⟩]⟩
       else none) = [⟨"marble", "grout", some 50, some 7⟩] ∧
    ("grout" : String) ≠ "None" := by decide

/-- C4 (amended): the combining loop emits exactly one row per primary
material with a summary (primaries without data are skipped, never padded
with zeros), in input order; combined values are the sum of the two medians
when the mapped secondary has a summary and the primary's medians alone
otherwise; the Secondary field reports the mapped non-empty name when one is
mapped — even if that secondary has no summary — and "None" only when no
non-empty secondary is mapped. -/
theorem combine_amended (ps : List String) (mapping : String → Option String)
    (results : String → Option MaterialSummary) :
    combined ps mapping results = combineSpec ps mapping results ∧
    (combined ps mapping results).map ComparisonRow.primary =
      ps.filter (fun p => (results p).isSome) := by
  have hEq : combined ps mapping results = combineSpec ps mapping results := by
    unfold combined combineSpec
    congr 1
    funext p
    cases hr : results p with
    | none => rfl
    | some pr =>
      simp only [Option.map_some]
      unfold combineSpecRow mappedSecondary
      cases hm : mapping p with
      | none => rfl
      | some sec =>
        by_cases hs : sec = ""
        · simp [hs]
        · simp only [if_neg hs]
          cases results sec <;> rfl
  refine ⟨hEq, ?_⟩
  rw [hEq]
  clear hEq
  induction ps with
  | nil => rfl
  | cons p ps' ih =>
    unfold combineSpec at ih ⊢
    rw [List.filterMap_cons, List.filter_cons]
    cases hr : results p with
    | none => simpa [hr] using ih
    | some pr =>
      simp only [hr, Option.map_some', Option.isSome_some, if_pos, List.map_cons,
        combineSpecRow_primary, cond_true]
      exact congrArg (List.cons p) ih

/-- The skewness of fewer than 3 values is either the NaN sentinel (no value,
or zero variance) or exactly zero with positive variance (two distinct
values, whose third central moment vanishes by symmetry). -/
theorem skew_lt3 (xs : List ℚ) (h : xs.length < 3) :
    skew xs = none ∨ ∃ m2 : ℚ, 0 < m2 ∧ skew xs = some (0, m2) := by
  match xs, h with
  | [], _ => exact Or.inl rfl
  | [a], _ =>
    left
    simp [skew]
  | [a, b], _ =>
    by_cases hab : a = b
    · subst hab
      left
      simp [skew]
    · right
      have hm2 : ((a - (a + (b + 0)) / 2) ^ 2 + ((b - (a + (b + 0)) / 2) ^ 2 + 0)) / 2
          = (a - b) ^ 2 / 4 := by ring
      have hm3 : ((a - (a + (b + 0)) / 2) ^ 3 + ((b - (a + (b + 0)) / 2) ^ 3 + 0)) / 2
          = 0 := by ring
      have hpos : (0 : ℚ) < (a - b) ^ 2 / 4 := by
        have hne : a - b ≠ 0 := sub_ne_zero.mpr hab
        have : (0 : ℚ) < (a - b) ^ 2 :=
          lt_of_le_of_ne (sq_nonneg _) (Ne.symm (pow_ne_zero 2 hne))
        linarith
      refine ⟨(a - b) ^ 2 / 4, hpos, ?_⟩
      simp only [skew, List.map_cons, List.map_nil, List.sum_cons, List.sum_nil,
        List.length_cons, List.length_nil]
      norm_num only
      rw [hm2, hm3] at *
      rw [if_neg (by exact ne_of_gt hpos)]

/-- C6 counterexample: for the matched subset with Embodied Energy values
[1, 2] — two non-null values, fewer than 3 — the analysis returns the
skewness value 0 (moments m3 = 0, m2 = 1/4 > 0), an ordinary number, not the
NaN sentinel the claim requires. -/
theorem skew_small_counterexample :
    (eeVals [⟨some "epoxy grout A", some 1, none⟩, ⟨some "epoxy grout B", some 2, none⟩]).length
        < 3 ∧
    (perform_analysis [⟨some "epoxy grout A", some 1, none⟩,
        ⟨some "epoxy grout B", some 2, none⟩] "epoxy").map MaterialSummary.skew_ee =
      some (some (0, 1/4)) := by decide

/-- C6 (amended): with fewer than 3 non-null values the analysis still
completes without crashing, and the skewness it reports is either the NaN
sentinel (no values, or zero variance as with one value or tied values) or
exactly the ordinary value 0 with positive variance (two distinct values);
scipy's default returns 0, not NaN, in that last case. -/
theorem skew_small_sample (df : List Record) (material : String) (s : MaterialSummary)
    (h : perform_analysis df material = some s) :
    ((eeVals s.data).length < 3 →
      s.skew_ee = none ∨ ∃ m2 : ℚ, 0 < m2 ∧ s.skew_ee = some (0, m2)) ∧
    ((ecVals s.data).length < 3 →
      s.skew_ec = none ∨ ∃ m2 : ℚ, 0 < m2 ∧ s.skew_ec = some (0, m2)) := by
  obtain ⟨-, hsee, hsec, -, -, hdata⟩ := analyze_some_eq h
  rw [← hdata] at hsee hsec
  constructor
  · intro hlen
    rw [hsee]
    exact skew_lt3 _ hlen
  · intro hlen
    rw [hsec]
    exact skew_lt3 _ hlen

/-- Witness for C6 (amended) at the concrete two-value dataset. -/
theorem skew_small_sample_witness :
    (⟨some (0, 1/4), none, some (3/2), none,
        [⟨some "epoxy grout A", some 1, none⟩, ⟨some "epoxy grout B", some 2, none⟩]⟩ :
      MaterialSummary).skew_ee = none ∨
    ∃ m2 : ℚ, 0 < m2 ∧
      (⟨some (0, 1/4), none, some (3/2), none,
          [⟨some "epoxy grout A", some 1, none⟩, ⟨some "epoxy grout B", some 2, none⟩]⟩ :
        MaterialSummary).skew_ee = some (0, m2) :=
  (skew_small_sample [⟨some "epoxy grout A", some 1, none⟩, ⟨some "epoxy grout B", some 2, none⟩]
    "epoxy"
    ⟨some (0, 1/4), none, some (3/2), none,
      [⟨some "epoxy grout A", some 1, none⟩, ⟨some "epoxy grout B", some 2, none⟩]⟩
    (by decide)).1 (by decide)

/-- The computable floor agrees with the mathematical floor on nonnegative
rationals. -/
theorem natFloorQ_eq_floor {x : ℚ} (hx : 0 ≤ x) : natFloorQ x = ⌊x⌋₊ := by
  have hden : (0 : ℚ) < (x.den : ℚ) := by exact_mod_cast x.den_pos
  have hnum : (0 : ℤ) ≤ x.num := Rat.num_nonneg.mpr hx
  set a := x.num.toNat with ha
  set b := x.den with hb
  have hbpos : 0 < b := by rw [hb]; exact x.den_pos
  have hx_eq : ((a : ℕ) : ℚ) / (b : ℚ) = x := by
    have h1 : ((a : ℕ) : ℚ) = ((x.num : ℤ) : ℚ) := by
      rw [ha]
      exact_mod_cast congrArg (Int.cast : ℤ → ℚ) (Int.toNat_of_nonneg hnum)
    rw [h1, hb]
    exact Rat.num_div_den x
  symm
  rw [Nat.floor_eq_iff hx]
  constructor
  · show ((a / b : ℕ) : ℚ) ≤ x
    rw [← hx_eq, le_div_iff₀ hden]
    exact_mod_cast Nat.div_mul_le_self a b
  · show x < ((a / b : ℕ) : ℚ) + 1
    rw [← hx_eq, div_lt_iff₀ hden]
    have hmod := Nat.div_add_mod a b
    have hlt := Nat.mod_lt a hbpos
    have hkey : a < (a / b + 1) * b := by
      nlinarith [hmod, hlt]
    exact_mod_cast hkey

/-- `getD` with any default is the indexed element at in-range positions. -/
theorem getD_eq_getElem_q (s : List ℚ) {i : ℕ} (hi : i < s.length) :
    s.getD i 0 = s[i] := by
  rw [List.getD_eq_getElem?_getD, List.getElem?_eq_getElem hi, Option.getD_some]

/-- In a sorted list the elements increase with the index. -/
theorem sorted_getD_mono {s : List ℚ} (hs : s.Sorted (· ≤ ·)) {i j : ℕ}
    (hij : i ≤ j) (hj : j < s.length) : s.getD i 0 ≤ s.getD j 0 := by
  have hi : i < s.length := lt_of_le_of_lt hij hj
  rw [getD_eq_getElem_q s hi, getD_eq_getElem_q s hj]
  simpa using hs.rel_get_of_le (a := ⟨i, hi⟩) (b := ⟨j, hj⟩) (Fin.mk_le_mk.mpr hij)

/-- In-range `getD` values are members of the list. -/
theorem getD_mem_q {s : List ℚ} {i : ℕ} (hi : i < s.length) : s.getD i 0 ∈ s := by
  rw [getD_eq_getElem_q s hi]
  exact List.getElem_mem hi

/-- The interpolated quantile of a sorted nonempty list lies between its two
neighbouring order statistics. -/
theorem quantileSorted_bounds {s : List ℚ} (hs : s.Sorted (· ≤ ·)) (hne : s ≠ [])
    {q : ℚ} (hq0 : 0 ≤ q) (hq1 : q ≤ 1) :
    natFloorQ (q * ((s.length : ℚ) - 1)) ≤ s.length - 1 ∧
    s.getD (natFloorQ (q * ((s.length : ℚ) - 1))) 0 ≤ quantileSorted s q ∧
    quantileSorted s q ≤
      s.getD (min (natFloorQ (q * ((s.length : ℚ) - 1)) + 1) (s.length - 1)) 0 := by
  have hn : 1 ≤ s.length := List.length_pos.mpr hne
  have hn1 : (1 : ℚ) ≤ (s.length : ℚ) := by exact_mod_cast hn
  have hh0 : 0 ≤ q * ((s.length : ℚ) - 1) := mul_nonneg hq0 (by linarith)
  have hfl : natFloorQ (q * ((s.length : ℚ) - 1)) = ⌊q * ((s.length : ℚ) - 1)⌋₊ :=
    natFloorQ_eq_floor hh0
  have hile : ((natFloorQ (q * ((s.length : ℚ) - 1)) : ℕ) : ℚ) ≤ q * ((s.length : ℚ) - 1) := by
    rw [hfl]; exact Nat.floor_le hh0
  have hlt : q * ((s.length : ℚ) - 1) < (natFloorQ (q * ((s.length : ℚ) - 1)) : ℚ) + 1 := by
    rw [hfl]; exact_mod_cast Nat.lt_floor_add_one (q * ((s.length : ℚ) - 1))
  have hi_le : natFloorQ (q * ((s.length : ℚ) - 1)) ≤ s.length - 1 := by
    rw [hfl]
    have hle : q * ((s.length : ℚ) - 1) ≤ ((s.length - 1 : ℕ) : ℚ) := by
      rw [Nat.cast_sub hn]
      push_cast
      nlinarith
    calc ⌊q * ((s.length : ℚ) - 1)⌋₊ ≤ ⌊((s.length - 1 : ℕ) : ℚ)⌋₊ := Nat.floor_mono hle
    _ = s.length - 1 := Nat.floor_natCast _
  have hminlt : min (natFloorQ (q * ((s.length : ℚ) - 1)) + 1) (s.length - 1) < s.length :=
    lt_of_le_of_lt (min_le_right _ _) (by omega)
  have hab : s.getD (natFloorQ (q * ((s.length : ℚ) - 1))) 0 ≤
      s.getD (min (natFloorQ (q * ((s.length : ℚ) - 1)) + 1) (s.length - 1)) 0 :=
    sorted_getD_mono hs (le_min (Nat.le_succ _) hi_le) hminlt
  have hprod := mul_nonneg (sub_nonneg.mpr hile) (sub_nonneg.mpr hab)
  have hprod2 := mul_nonneg
    (by linarith : (0:ℚ) ≤ 1 - (q * ((s.length : ℚ) - 1) -
      (natFloorQ (q * ((s.length : ℚ) - 1)) : ℚ)))
    (sub_nonneg.mpr hab)
  have hexp : (1 - (q * ((s.length : ℚ) - 1) - (natFloorQ (q * ((s.length : ℚ) - 1)) : ℚ))) *
      (s.getD (min (natFloorQ (q * ((s.length : ℚ) - 1)) + 1) (s.length - 1)) 0 -
        s.getD (natFloorQ (q * ((s.length : ℚ) - 1))) 0) =
      (s.getD (min (natFloorQ (q * ((s.length : ℚ) - 1)) + 1) (s.length - 1)) 0 -
        s.getD (natFloorQ (q * ((s.length : ℚ) - 1))) 0) -
      (q * ((s.length : ℚ) - 1) - (natFloorQ (q * ((s.length : ℚ) - 1)) : ℚ)) *
      (s.getD (min (natFloorQ (q * ((s.length : ℚ) - 1)) + 1) (s.length - 1)) 0 -
        s.getD (natFloorQ (q * ((s.length : ℚ) - 1))) 0) := by ring
  rw [hexp] at hprod2
  refine ⟨hi_le, ?_, ?_⟩
  · simp only [quantileSorted]
    linarith [hprod]
  · simp only [quantileSorted]
    linarith [hprod2]

/-- The 25th-percentile index: floor of `(1/4)·m` as a natural division. -/
theorem natFloorQ_quarter (m : ℕ) : natFloorQ ((1/4 : ℚ) * (m : ℚ)) = m / 4 := by
  have h0 : (0 : ℚ) ≤ (1/4 : ℚ) * (m : ℚ) := by positivity
  rw [natFloorQ_eq_floor h0]
  have he : (1/4 : ℚ) * (m : ℚ) = (m : ℚ) / ((4 : ℕ) : ℚ) := by push_cast; ring
  rw [he, Nat.floor_div_nat, Nat.floor_natCast]

/-- The 75th-percentile index: floor of `(3/4)·m` as a natural division. -/
theorem natFloorQ_threequarter (m : ℕ) : natFloorQ ((3/4 : ℚ) * (m : ℚ)) = 3 * m / 4 := by
  have h0 : (0 : ℚ) ≤ (3/4 : ℚ) * (m : ℚ) := by positivity
  rw [natFloorQ_eq_floor h0]
  have he : (3/4 : ℚ) * (m : ℚ) = ((3 * m : ℕ) : ℚ) / ((4 : ℕ) : ℚ) := by push_cast; ring
  rw [he, Nat.floor_div_nat, Nat.floor_natCast]

/-- The interpolated quantile of a two-element sorted list, for `q` in
`[0, 1)`. -/
theorem quantileSorted_pair (a b q : ℚ) (hq0 : 0 ≤ q) (hq1 : q < 1) :
    quantileSorted [a, b] q = a + q * (b - a) := by
  simp only [quantileSorted, List.length_cons, List.length_nil]
  have hcast : ((0 + 1 + 1 : ℕ) : ℚ) - 1 = 1 := by push_cast; ring
  rw [hcast, mul_one]
  have hfl : natFloorQ q = 0 := by
    rw [natFloorQ_eq_floor hq0]
    exact Nat.floor_eq_zero.mpr hq1
  rw [hfl]
  norm_num

/-- A sorted nonempty list always has an element inside the inclusive band
`[Q1 − 1.5·IQR, Q3 + 1.5·IQR]`: for two elements the smaller one (the band
reaches half an IQR below it), otherwise an order statistic lying between Q1
and Q3. -/
theorem exists_in_band {s : List ℚ} (hsorted : s.Sorted (· ≤ ·)) (hne : s ≠ []) :
    ∃ v ∈ s,
      quantileSorted s (1/4) - 3/2 * (quantileSorted s (3/4) - quantileSorted s (1/4)) ≤ v ∧
      v ≤ quantileSorted s (3/4) + 3/2 * (quantileSorted s (3/4) - quantileSorted s (1/4)) := by
  have hn : 1 ≤ s.length := List.length_pos.mpr hne
  by_cases hn2 : s.length = 2
  · obtain ⟨a, b, rfl⟩ := List.length_eq_two.mp hn2
    have hab : a ≤ b := (List.sorted_cons.mp hsorted).1 b (by simp)
    have e1 : quantileSorted [a, b] (1/4) = a + (1/4) * (b - a) :=
      quantileSorted_pair a b (1/4) (by norm_num) (by norm_num)
    have e3 : quantileSorted [a, b] (3/4) = a + (3/4) * (b - a) :=
      quantileSorted_pair a b (3/4) (by norm_num) (by norm_num)
    refine ⟨a, by simp, ?_, ?_⟩ <;> rw [e1, e3] <;> linarith
  · have hmcast : ((s.length : ℚ) - 1) = ((s.length - 1 : ℕ) : ℚ) := by
      rw [Nat.cast_sub hn]; push_cast; ring
    have hi1 : natFloorQ ((1/4 : ℚ) * ((s.length : ℚ) - 1)) = (s.length - 1) / 4 := by
      rw [hmcast, natFloorQ_quarter]
    have hi3 : natFloorQ ((3/4 : ℚ) * ((s.length : ℚ) - 1)) = 3 * (s.length - 1) / 4 := by
      rw [hmcast, natFloorQ_threequarter]
    have hb1 := quantileSorted_bounds hsorted hne (q := 1/4) (by norm_num) (by norm_num)
    have hb3 := quantileSorted_bounds hsorted hne (q := 3/4) (by norm_num) (by norm_num)
    have hk_le : min ((s.length - 1) / 4 + 1) (s.length - 1) ≤ 3 * (s.length - 1) / 4 := by
      omega
    have hi3_lt : 3 * (s.length - 1) / 4 < s.length := by omega
    have hQ1v := hb1.2.2
    rw [hi1] at hQ1v
    have ha3 := hb3.2.1
    rw [hi3] at ha3
    have hvmono : s.getD (min ((s.length - 1) / 4 + 1) (s.length - 1)) 0 ≤
        s.getD (3 * (s.length - 1) / 4) 0 :=
      sorted_getD_mono hsorted hk_le hi3_lt
    have hvlt : min ((s.length - 1) / 4 + 1) (s.length - 1) < s.length := by omega
    refine ⟨s.getD (min ((s.length - 1) / 4 + 1) (s.length - 1)) 0, getD_mem_q hvlt, ?_, ?_⟩ <;>
      linarith [hQ1v, ha3, hvmono]

/-- The IQR trim never discards every value — the retained list is nonempty
whenever the input list is. -/
theorem iqrClean_ne_nil {xs : List ℚ} (hne : xs ≠ []) : iqrClean xs ≠ [] := by
  have hperm := List.perm_insertionSort (· ≤ ·) xs
  have hsorted := List.sorted_insertionSort (· ≤ ·) xs
  have hsne : List.insertionSort (· ≤ ·) xs ≠ [] := fun h0 => hne ((h0 ▸ hperm.symm).eq_nil)
  obtain ⟨v, hv_mem, hv1, hv2⟩ := exists_in_band hsorted hsne
  have hv_xs : v ∈ xs := hperm.mem_iff.mp hv_mem
  intro hcontra
  simp only [iqrClean, quantile, if_neg hne] at hcontra
  have hnp := List.filter_eq_nil_iff.mp hcontra v hv_xs
  simp only [Bool.and_eq_true, decide_eq_true_eq, not_and] at hnp
  exact absurd hv2 (hnp hv1)

/-- The median of a nonempty value list is a number, not the NaN sentinel. -/
theorem median_ne_none {xs : List ℚ} (hne : xs ≠ []) : median xs ≠ none := by
  rw [median, quantile, if_neg hne]
  simp

/-- C10: whenever the matched subset has at least one non-null value for a
metric, the post-trim retained set for that metric is nonempty and the
trimmed median `analyze` returns for it is a defined number, never the NaN
sentinel. -/
theorem trimmed_retained_nonempty (df : List Record) (material : String) (s : MaterialSummary)
    (h : perform_analysis df material = some s) :
    (eeVals s.data ≠ [] → iqrClean (eeVals s.data) ≠ [] ∧ s.median_ee ≠ none) ∧
    (ecVals s.data ≠ [] → iqrClean (ecVals s.data) ≠ [] ∧ s.median_ec ≠ none) := by
  obtain ⟨-, -, -, hmee, hmec, hdata⟩ := analyze_some_eq h
  rw [← hdata] at hmee hmec
  constructor <;> intro hne
  · exact ⟨iqrClean_ne_nil hne, hmee ▸ median_ne_none (iqrClean_ne_nil hne)⟩
  · exact ⟨iqrClean_ne_nil hne, hmec ▸ median_ne_none (iqrClean_ne_nil hne)⟩

/-- Witness for C10 at a concrete one-record dataset with a single Embodied
Energy value. -/
theorem trimmed_retained_nonempty_witness :
    iqrClean (eeVals (⟨none, none, some 5, none, [⟨some "screed sheets", some 5, none⟩]⟩ :
      MaterialSummary).data) ≠ [] ∧
    (⟨none, none, some 5, none, [⟨some "screed sheets", some 5, none⟩]⟩ :
      MaterialSummary).median_ee ≠ none :=
  (trimmed_retained_nonempty [⟨some "screed sheets", some 5, none⟩] "screed"
    ⟨none, none, some 5, none, [⟨some "screed sheets", some 5, none⟩]⟩ (by decide)).1
    (by decide)
